import Mathlib

/-!
Shallow embedding of the transformation-and-audit pipeline of the
FHE-ZAMA-Agent2Agent demo repository.

Embedding conventions:
* JavaScript numbers are modelled as exact rationals (`ℚ`).  The runtime
  value `NaN`, which arises when the scalar fallback branch of a transform
  coerces an object to a number, is modelled by the extra constructor
  `JsNum.nan`; arithmetic on `JsNum` propagates `nan` exactly as JS
  arithmetic propagates `NaN` (including `Math.min`/`Math.floor`).
* Ambient sources (`Date.now()`, `Math.random()`, `crypto.randomUUID()`)
  are passed as explicit arguments: a clock reading `now : ℕ`, random
  rational draws in `[0,1)`, a pre-rendered random suffix string, and a
  fresh identifier string.  This matches the spec's injection requirement
  and lets theorems quantify over every possible draw.
* `Math.floor (Math.sqrt d)` (for `d ≥ 0`) is modelled by the computable
  `jsSqrtFloor`, with the lemma `jsSqrtFloor_eq` relating it to
  `⌊Real.sqrt d⌋` so that theorem statements can use the real square root.
* `Number.prototype.toString(16)` is fully specified by ECMAScript only
  for integer values; `generateCiphertext` therefore returns `none`
  when the rendered quantity is not an integer (implementation-approximated
  rendering), and `some` of the exact label otherwise.
* The record types (`PatientVitals`, `EncryptionState`, `FheValue`,
  `SimulatedOpResult`, `LogEntry`) mirror the repository's `types.ts`
  declarations as used by `fheSimulation.ts`, `geminiService.ts` and the
  UI components; the structured profile payload keeps only its list of
  numeric field values, which is all `Object.values(...).reduce` consumes.
-/

/-- A JavaScript number: an exact rational or `NaN`. -/
inductive JsNum where
  | num (q : ℚ)
  | nan
deriving DecidableEq

/-- JS multiplication with `NaN` propagation. -/
def jsMul : JsNum → JsNum → JsNum
  | .num a, .num b => .num (a * b)
  | _, _ => .nan

/-- JS addition with `NaN` propagation. -/
def jsAdd : JsNum → JsNum → JsNum
  | .num a, .num b => .num (a + b)
  | _, _ => .nan

/-- `Math.floor`, which maps `NaN` to `NaN`. -/
def jsFloor : JsNum → JsNum
  | .num q => .num ((⌊q⌋ : ℤ) : ℚ)
  | .nan => .nan

/-- `Math.min`, which returns `NaN` whenever an argument is `NaN`. -/
def jsMin : JsNum → JsNum → JsNum
  | .num a, .num b => .num (min a b)
  | _, _ => .nan

/-- `Math.floor (Math.sqrt q)` for a nonnegative rational, computed as the
natural square root of `⌊q⌋`; `jsSqrtFloor_eq` proves this equals
`⌊Real.sqrt q⌋` whenever `0 ≤ q`. -/
def jsSqrtFloor (q : ℚ) : ℤ := (Nat.sqrt ⌊q⌋.toNat : ℤ)

/-- Decimal rendering of a JS number as used in template literals.  JS and
this model agree on integers (the only values interpolated by the
pipeline's step strings); the non-integer fallback is cosmetic. -/
def jsNumToString : JsNum → String
  | .nan => "NaN"
  | .num q => if q.den = 1 then toString q.num else toString q

/-- The `PatientVitals` record from `types.ts`, fields as consumed by the
transforms and the UI. -/
structure PatientVitals where
  heartRate : ℚ
  systolic : ℚ
  diastolic : ℚ
  temperature : ℚ
  oxygenSat : ℚ
  symptomSeverity : ℚ
deriving DecidableEq

/-- The `FheDataType` union: a scalar number, a `PatientVitals` record, or
another structured record (`CreditProfile`) of which only the list of
numeric field values (`Object.values`) is ever consumed. -/
inductive FheDataType where
  | scalar (v : JsNum)
  | vitals (v : PatientVitals)
  | profile (fields : List ℚ)
deriving DecidableEq

/-- `typeof value === 'object'`: true exactly for the structured payloads. -/
def FheDataType.isStructured : FheDataType → Bool
  | .scalar _ => false
  | _ => true

/-- The JS `ToNumber` coercion applied by the scalar fallback branches:
a scalar passes through, an object coerces to `NaN`. -/
def jsToNumber : FheDataType → JsNum
  | .scalar j => j
  | _ => .nan

/-- The `EncryptionState` enum from `types.ts`. -/
inductive EncryptionState where
  | PLAINTEXT
  | ENCRYPTED
  | PROCESSED
  | DECRYPTED
deriving DecidableEq

/-- Position of a state along the documented ordering
`PLAINTEXT, ENCRYPTED, PROCESSED, DECRYPTED`. -/
def stateRank : EncryptionState → ℕ
  | .PLAINTEXT => 0
  | .ENCRYPTED => 1
  | .PROCESSED => 2
  | .DECRYPTED => 3

/-- The `FheValue` envelope.  `encryptedBlob` is `none` when the rendered
ciphertext label falls in ECMAScript's implementation-approximated regime
(non-integer radix-16 rendering), `some` of the exact label otherwise. -/
structure FheValue where
  id : String
  rawValue : FheDataType
  encryptedBlob : Option String
  state : EncryptionState
  history : List String
deriving DecidableEq

/-- The `SimulatedOpResult` audit record returned by every operation. -/
structure SimulatedOpResult where
  value : FheValue
  logDetails : String
  mathFormula : String
  stepByStepCalculation : List String
  metrics : List (String × String)
deriving DecidableEq

/-- Character for a single hex digit, lowercase as produced by
`Number.prototype.toString(16)`. -/
def hexDigitChar (n : ℕ) : Char :=
  if n < 10 then Char.ofNat (48 + n) else Char.ofNat (87 + n)

/-- Base-16 digits of `n`, least significant first, computed with
structural fuel (`n` itself bounds the digit count). -/
def hexDigitsAux : ℕ → ℕ → List ℕ
  | 0, _ => []
  | _ + 1, 0 => []
  | fuel + 1, n + 1 => ((n + 1) % 16) :: hexDigitsAux fuel ((n + 1) / 16)

/-- `n.toString(16)` for a natural number. -/
def natToHexString (n : ℕ) : String :=
  if n = 0 then "0" else String.mk (((hexDigitsAux n n).reverse).map hexDigitChar)

/-- `i.toString(16)` for an integer (ECMAScript prefixes a minus sign). -/
def intToHexString (i : ℤ) : String :=
  if i < 0 then "-" ++ natToHexString i.natAbs else natToHexString i.toNat

/-- `s.slice(-6)`: the last six characters, or the whole string when it is
shorter than six characters. -/
def sliceLast6 (s : String) : String :=
  String.mk (s.data.drop (s.data.length - 6))

/-- The seed computed by `generateCiphertext`: the value itself for a
scalar, `heartRate + systolic + temperature` for vitals, and the sum of
all numeric fields for any other structured payload. -/
def seedOf : FheDataType → JsNum
  | .scalar j => j
  | .vitals v => .num (v.heartRate + v.systolic + v.temperature)
  | .profile fields => .num fields.sum

/-- `generateCiphertext` from `fheSimulation.ts`:
`ct_0x` + the last six characters of `(seed*1337 + Date.now()).toString(16)`
+ `...` + a random suffix.  `now` models `Date.now()` and `noise` models
`Math.random().toString(36).substring(7)`.  Returns `none` when the
quantity handed to `toString(16)` is a non-integer rational, whose
radix-16 rendering ECMAScript leaves implementation-approximated. -/
def generateCiphertext (value : FheDataType) (now : ℕ) (noise : String) : Option String :=
  match seedOf value with
  | .nan => some ("ct_0x" ++ sliceLast6 "NaN" ++ "..." ++ noise)
  | .num q =>
    let x : ℚ := q * 1337 + now
    if x.den = 1 then some ("ct_0x" ++ sliceLast6 (intToHexString x.num) ++ "..." ++ noise)
    else none

/-- The record returned by `generateToyLWE`. -/
structure ToyLWE where
  s : List ℤ
  a : List ℤ
  error : ℤ
  dotProduct : ℤ
  deltaM : JsNum
  b : JsNum
deriving DecidableEq

/-- `generateToyLWE` from `fheSimulation.ts`.  `maskRand i` and `errRand`
are the `Math.random()` draws in `[0,1)` used for the mask entries and the
error term; the call site uses the default `scale = 100`. -/
def generateToyLWE (message : JsNum) (scale : ℚ) (maskRand : Fin 4 → ℚ) (errRand : ℚ) : ToyLWE :=
  let s : List ℤ := [1, 0, 1, 0]
  let a : List ℤ := (List.finRange 4).map (fun i => ⌊maskRand i * 1000⌋)
  let error : ℤ := ⌊errRand * 5⌋ + 1
  let deltaM : JsNum := jsMul message (.num scale)
  let dotProduct : ℤ := (List.zipWith (· * ·) a s).sum
  let b : JsNum := jsAdd (jsAdd (.num dotProduct) deltaM) (.num error)
  { s := s, a := a, error := error, dotProduct := dotProduct, deltaM := deltaM, b := b }

/-- `[x, y, z].join(', ')`. -/
def joinInts (l : List ℤ) : String :=
  String.intercalate ", " (l.map toString)

/-- `encryptValue` from `fheSimulation.ts`.  `uuid` models
`crypto.randomUUID()`; `now`/`noise` feed `generateCiphertext`;
`maskRand`/`errRand` feed `generateToyLWE` in the scalar branch. -/
def encryptValue (val : FheDataType) (uuid : String) (now : ℕ) (noise : String)
    (maskRand : Fin 4 → ℚ) (errRand : ℚ) : SimulatedOpResult :=
  let encrypted : FheValue :=
    { id := uuid
      rawValue := val
      encryptedBlob := generateCiphertext val now noise
      state := .ENCRYPTED
      history := ["Initial Encryption"] }
  let isObject : Bool := val.isStructured
  let steps : List String :=
    if isObject then
      [ "1. Serialization: Convert Patient Vitals vector to tensor."
      , "2. KeyGen: Generate Secret Key (S) and Cloud Key (CK)."
      , "3. Packing: Encrypt multiple vitals into LWE ciphertexts."
      , "4. Noise Addition: Sample Gaussian error for security."
      , "5. Result: Encrypted Vitals Vector ready for transmission." ]
    else
      let m : JsNum := jsToNumber val
      let t := generateToyLWE m 100 maskRand errRand
      [ "1. Setup: Define dimension n=4, Modulus q=2^32."
      , "2. Secret Key (s): [" ++ joinInts t.s ++ "] (Only known to Client)"
      , "3. Scaling: Map message m=" ++ jsNumToString m ++ " to Torus: Δm = "
          ++ jsNumToString m ++ " * 100 = " ++ jsNumToString t.deltaM
      , "4. Random Mask (a): [" ++ joinInts t.a ++ "] (Publicly generated)"
      , "5. Compute Inner Product <a, s>: (" ++ toString (t.a.getD 0 0) ++ "*"
          ++ toString (t.s.getD 0 0) ++ ") + (" ++ toString (t.a.getD 1 0) ++ "*"
          ++ toString (t.s.getD 1 0) ++ ") + (" ++ toString (t.a.getD 2 0) ++ "*"
          ++ toString (t.s.getD 2 0) ++ ") + (" ++ toString (t.a.getD 3 0) ++ "*"
          ++ toString (t.s.getD 3 0) ++ ") = " ++ toString t.dotProduct
      , "6. Add Noise (e): Sample Gaussian error e = " ++ toString t.error
      , "7. Compute Body (b): " ++ toString t.dotProduct ++ " + " ++ jsNumToString t.deltaM
          ++ " + " ++ toString t.error ++ " = " ++ jsNumToString t.b ]
  { value := encrypted
    logDetails :=
      if isObject then
        "Encrypted Patient Vitals Vector. Each parameter (HR, BP, Temp) is individually encrypted but bundled."
      else
        "Encrypted Scalar Value using TFHE scheme."
    mathFormula :=
      if isObject then "Ct = Enc(Vitals_Vector, Public_Params)"
      else "Ciphertext = (Mask, (Mask • Secret) + (Message • Scale) + Error)"
    stepByStepCalculation := steps
    metrics :=
      [ ("security_level", "128-bit")
      , ("dimension", if isObject then "n=2048" else "n=1024")
      , ("noise_variance", "σ² ≈ 2^-25") ] }

/-- `homomorphicDiagnosis` from `fheSimulation.ts` (Specialist, Agent C). -/
def homomorphicDiagnosis (a : FheValue) (now : ℕ) (noise : String) : SimulatedOpResult :=
  let branch : JsNum × List String :=
    match a.rawValue with
    | .vitals v =>
      let score : ℚ :=
        (if v.heartRate > 100 ∨ v.heartRate < 50 then 20 else 0)
        + (if v.systolic > 140 then 20 else 0)
        + (if v.temperature > 37.5 then 25 else 0)
        + (if v.oxygenSat < 95 then 30 else 0)
        + v.symptomSeverity * 0.3
      let newVal : JsNum := .num ((min 99 ⌊score⌋ : ℤ) : ℚ)
      ( newVal
      , [ "1. Input: Encrypted Feature Vector x = [HR, BP, Temp, O2, ...]."
        , "2. Linear Layer: Compute Dot Product Enc(z) = Σ (w_i • Enc(x_i)) + Enc(bias)."
        , "3. Programmable Bootstrapping (PBS): Apply Activation Function φ(z)."
        , "4. Activation: Using lookup table for Sigmoid/ReLU over Torus."
        , "5. Result: Encrypted Diagnosis Confidence " ++ jsNumToString newVal ++ "%." ] )
    | p =>
      let newVal : JsNum := jsMin (.num 99) (jsFloor (jsMul (jsToNumber p) (.num 1.5)))
      (newVal, ["1. Input: Scalar", "2. Op: Linear Eval", "3. Result: " ++ jsNumToString newVal])
  let newVal := branch.1
  { value :=
      { a with
        rawValue := .scalar newVal
        encryptedBlob := generateCiphertext (.scalar newVal) now noise
        state := .PROCESSED
        history := a.history ++ ["Specialist Diagnosis (NN)"] }
    logDetails :=
      "Specialist executed an encrypted Neural Network inference layer using Programmable Bootstrapping (PBS)."
    mathFormula := "y = PBS_ReLU( W • Enc(x) + b )"
    stepByStepCalculation := branch.2
    metrics :=
      [ ("model_type", "FHE-Neural-Net")
      , ("layers", "1 Linear + 1 PBS")
      , ("pbs_latency", "420ms") ] }

/-- `homomorphicLabAnalysis` from `fheSimulation.ts` (Medical Lab, Agent D). -/
def homomorphicLabAnalysis (a : FheValue) (now : ℕ) (noise : String) : SimulatedOpResult :=
  let branch : JsNum × List String :=
    match a.rawValue with
    | .vitals v =>
      let d_hr : ℚ := (v.heartRate - 70) ^ 2
      let d_sys : ℚ := (v.systolic - 120) ^ 2
      let d_o2 : ℚ := (v.oxygenSat - 98) ^ 2 * 5
      let newVal : JsNum := .num ((min 100 (jsSqrtFloor (d_hr + d_sys + d_o2)) : ℤ) : ℚ)
      ( newVal
      , [ "1. Normalization: Enc(x_norm) = Enc(x) - Enc(μ)."
        , "2. Square Calculation: PBS_Square( Enc(x_norm) ) mapping x -> x²."
        , "3. Accumulation: Σ Enc(x²_i) (Homomorphic Addition)."
        , "4. Thresholding: Compare Enc(Sum) > Enc(Limit)."
        , "5. Result: Encrypted Deviation Score " ++ jsNumToString newVal ++ "." ] )
    | p =>
      let newVal : JsNum := jsMin (.num 100) (jsFloor (jsMul (jsToNumber p) (.num 1.2)))
      (newVal, ["1. Input: Scalar", "2. Op: Analysis", "3. Result: " ++ jsNumToString newVal])
  let newVal := branch.1
  { value :=
      { a with
        rawValue := .scalar newVal
        encryptedBlob := generateCiphertext (.scalar newVal) now noise
        state := .PROCESSED
        history := a.history ++ ["Lab Analysis (Stats)"] }
    logDetails :=
      "Medical Lab performed homomorphic statistical analysis (Variance Calculation) to detect anomalies."
    mathFormula := "σ² = Σ PBS_Square( Enc(x_i) - Enc(μ) )"
    stepByStepCalculation := branch.2
    metrics :=
      [ ("algo", "FHE-Statistical-Analysis")
      , ("ops", "3x PBS (Squaring)")
      , ("precision", "6-bit") ] }

/-- `homomorphicBilling` from `fheSimulation.ts` (Billing, Agent E).
`billRand` is the `Math.random()` draw in `[0,1)`. -/
def homomorphicBilling (a : FheValue) (now : ℕ) (noise : String) (billRand : ℚ) : SimulatedOpResult :=
  let cost : ℤ :=
    if a.rawValue.isStructured then 150 + ⌊billRand * 50⌋ else 50
  { value :=
      { a with
        rawValue := .scalar (.num (cost : ℚ))
        encryptedBlob := generateCiphertext (.scalar (.num (cost : ℚ))) now noise
        state := .PROCESSED
        history := a.history ++ ["Billing Generated"] }
    logDetails :=
      "Billing Agent calculated total cost securely. Patient financial info never exposed."
    mathFormula := "Bill = Σ FHE_Lookup( Enc(Service_i) )"
    stepByStepCalculation :=
      [ "1. Input: Encrypted Procedure Codes."
      , "2. Lookup: Homomorphic Table Lookup (Enc(Code) -> Enc(Cost))."
      , "3. Sum: Enc(Total) = Enc(Base) + Enc(Extras)."
      , "4. Output: Encrypted Bill Amount $" ++ toString cost ++ "." ]
    metrics :=
      [ ("ops", "Table Lookup")
      , ("execution_time", "0.9s") ] }

/-- `humanDoctorReview` from `fheSimulation.ts`: spreads the input envelope
unchanged apart from one appended history label. -/
def humanDoctorReview (a : FheValue) : SimulatedOpResult :=
  { value := { a with history := a.history ++ ["Human Doctor Approved"] }
    logDetails := "Human Doctor reviewed case in Trusted Execution Environment (TEE)."
    mathFormula := "Auth = Sign( Dec(Result) )"
    stepByStepCalculation :=
      [ "1. Receive Encrypted Diagnosis/Lab Results."
      , "2. Secure Enclave: Decrypt for Human Review (in Trusted Hardware)."
      , "3. Doctor Decision: APPROVE treatment plan."
      , "4. Output: Re-encrypted Authorization Token." ]
    metrics :=
      [ ("mode", "Hybrid (FHE + TEE)")
      , ("authority", "Dr. Smith") ] }

/-- The fields of a `LogEntry` consumed by `analyzeProtocolStep` when it
builds the prompt (`[source] action: details`); the remaining `LogEntry`
fields are assigned by the UI collaborator and never read here. -/
structure LogEntry where
  source : String
  action : String
  details : String
deriving DecidableEq

/-- The JSON payload `{analysis, securityScore}` decoded from the model
response. -/
structure AnalysisResult where
  analysis : String
  securityScore : ℚ
deriving DecidableEq

/-- The fixed fallback payload returned by `analyzeProtocolStep` when any
step inside its `try` block throws. -/
def fallbackAnalysis : AnalysisResult :=
  { analysis := "Unable to contact verification oracle. Protocol continuing in trustless mode."
    securityScore := 50 }

/-- `lastLogs.map(l => `[${l.source}] ${l.action}: ${l.details}`).join('\n')`. -/
def logsContext (logs : List LogEntry) : String :=
  String.intercalate "\n"
    (logs.map (fun l => "[" ++ l.source ++ "] " ++ l.action ++ ": " ++ l.details))

/-- The prompt template of `analyzeProtocolStep` with the log context
interpolated. -/
def promptFor (logs : List LogEntry) : String :=
  "\n        You are a Cryptography Auditor specializing in Fully Homomorphic Encryption (FHE) and ZAMA protocols.\n        Analyze the following recent protocol activity log between two Agents (Client and Server).\n        \n        Explain strictly in 2-3 short sentences what is happening mathematically or securely. \n        Focus on privacy guarantees (e.g., \"The server performed addition without seeing the input\").\n        \n        Logs:\n        " ++ logsContext logs ++ "\n        "

/-- Ambient behaviour of the external world as seen by
`analyzeProtocolStep`: the optional `process.env.API_KEY`, the transport
outcome of `ai.models.generateContent` as a function of the prompt
(`Except.error` = the promise rejects, `Except.ok none` = a missing or
otherwise falsy `response.text`), and the outcome of
`JSON.parse`-plus-cast on the response text. -/
structure GeminiEnv where
  apiKey : Option String
  call : String → Except Unit (Option String)
  parse : String → Except Unit AnalysisResult

/-- The body of `analyzeProtocolStep`'s `try` block: `Except.error` means
an exception escapes to the surrounding `catch`. -/
def analyzeProtocolStepBody (logs : List LogEntry) (env : GeminiEnv) :
    Except Unit (Option AnalysisResult) :=
  match env.apiKey with
  | none => .error ()
  | some _ =>
    match env.call (promptFor logs) with
    | .error e => .error e
    | .ok none => .ok none
    | .ok (some t) =>
      if t = "" then .ok none
      else
        match env.parse t with
        | .error e => .error e
        | .ok r => .ok (some r)

/-- `analyzeProtocolStep` from `geminiService.ts`: the `try` body with the
`catch` branch returning the fixed fallback payload. -/
def analyzeProtocolStep (logs : List LogEntry) (env : GeminiEnv) : Option AnalysisResult :=
  match analyzeProtocolStepBody logs env with
  | .ok r => r
  | .error _ => some fallbackAnalysis

/-- Selector for the four participant transforms. -/
inductive TTag where
  | diag
  | lab
  | bill
  | review
deriving DecidableEq

/-- One bundle of ambient draws consumed by a single transform call. -/
structure Amb where
  now : ℕ
  noise : String
  billRand : ℚ
deriving DecidableEq

/-- The envelope produced by one participant transform. -/
def applyTransform (t : TTag) (amb : Amb) (a : FheValue) : FheValue :=
  match t with
  | .diag => (homomorphicDiagnosis a amb.now amb.noise).value
  | .lab => (homomorphicLabAnalysis a amb.now amb.noise).value
  | .bill => (homomorphicBilling a amb.now amb.noise amb.billRand).value
  | .review => (humanDoctorReview a).value

/-- The history label appended by each transform. -/
def transformLabel : TTag → String
  | .diag => "Specialist Diagnosis (NN)"
  | .lab => "Lab Analysis (Stats)"
  | .bill => "Billing Generated"
  | .review => "Human Doctor Approved"

/-- Sequential threading of an envelope through a script of transform
calls, as the orchestrator does. -/
def runChain : List (TTag × Amb) → FheValue → FheValue
  | [], a => a
  | (t, amb) :: rest, a => runChain rest (applyTransform t amb a)

/-- The Scenario A/B vitals record (diastolic is not used by any
transform; 80 is a representative filler). -/
def demoVitals : PatientVitals :=
  { heartRate := 110, systolic := 150, diastolic := 80, temperature := 38
    oxygenSat := 90, symptomSeverity := 40 }

/-- A fresh envelope around a payload, as produced by `encryptValue`. -/
def demoEnvelope (p : FheDataType) : FheValue :=
  { id := "demo-id", rawValue := p, encryptedBlob := none
    state := .ENCRYPTED, history := ["Initial Encryption"] }

/-- A fixed bundle of ambient draws. -/
def demoAmb : Amb := { now := 0, noise := "", billRand := 0 }

theorem applyTransform_history (t : TTag) (amb : Amb) (a : FheValue) :
    (applyTransform t amb a).history = a.history ++ [transformLabel t] := by
  cases t <;> rfl

theorem applyTransform_id (t : TTag) (amb : Amb) (a : FheValue) :
    (applyTransform t amb a).id = a.id := by
  cases t <;> rfl

theorem applyTransform_state_cases (t : TTag) (amb : Amb) (a : FheValue) :
    (applyTransform t amb a).state = a.state ∨ (applyTransform t amb a).state = .PROCESSED := by
  cases t
  · exact .inr rfl
  · exact .inr rfl
  · exact .inr rfl
  · exact .inl rfl

theorem runChain_history_length (script : List (TTag × Amb)) :
    ∀ a : FheValue, (runChain script a).history.length = a.history.length + script.length := by
  induction script with
  | nil => intro a; rfl
  | cons p rest ih =>
    intro a
    obtain ⟨t, amb⟩ := p
    have h := ih (applyTransform t amb a)
    simp only [runChain] at h ⊢
    rw [h, applyTransform_history]
    simp
    omega

theorem runChain_state (script : List (TTag × Amb)) :
    ∀ a : FheValue, (a.state = .ENCRYPTED ∨ a.state = .PROCESSED) →
      ((runChain script a).state = .ENCRYPTED ∨ (runChain script a).state = .PROCESSED) := by
  induction script with
  | nil => intro a h; exact h
  | cons p rest ih =>
    intro a h
    obtain ⟨t, amb⟩ := p
    apply ih
    rcases applyTransform_state_cases t amb a with hs | hs
    · rw [hs]; exact h
    · rw [hs]; exact .inr rfl

/-- C3: every transform appends exactly one history label and preserves the
envelope id; `encryptValue` seeds the history with exactly one label, so a
fresh envelope threaded through `N` sequential transform calls ends with
history length `N + 1`. -/
theorem transform_history_discipline :
    (∀ (val : FheDataType) (uuid : String) (now : ℕ) (noise : String)
        (maskRand : Fin 4 → ℚ) (errRand : ℚ),
      (encryptValue val uuid now noise maskRand errRand).value.history = ["Initial Encryption"]
      ∧ (encryptValue val uuid now noise maskRand errRand).value.id = uuid)
    ∧ (∀ (a : FheValue) (now : ℕ) (noise : String),
        (homomorphicDiagnosis a now noise).value.history = a.history ++ ["Specialist Diagnosis (NN)"]
        ∧ (homomorphicDiagnosis a now noise).value.id = a.id)
    ∧ (∀ (a : FheValue) (now : ℕ) (noise : String),
        (homomorphicLabAnalysis a now noise).value.history = a.history ++ ["Lab Analysis (Stats)"]
        ∧ (homomorphicLabAnalysis a now noise).value.id = a.id)
    ∧ (∀ (a : FheValue) (now : ℕ) (noise : String) (billRand : ℚ),
        (homomorphicBilling a now noise billRand).value.history = a.history ++ ["Billing Generated"]
        ∧ (homomorphicBilling a now noise billRand).value.id = a.id)
    ∧ (∀ a : FheValue,
        (humanDoctorReview a).value.history = a.history ++ ["Human Doctor Approved"]
        ∧ (humanDoctorReview a).value.id = a.id)
    ∧ (∀ (val : FheDataType) (uuid : String) (now : ℕ) (noise : String)
        (maskRand : Fin 4 → ℚ) (errRand : ℚ) (script : List (TTag × Amb)),
        (runChain script (encryptValue val uuid now noise maskRand errRand).value).history.length
          = script.length + 1) := by
  refine ⟨fun _ _ _ _ _ _ => ⟨rfl, rfl⟩, fun _ _ _ => ⟨rfl, rfl⟩, fun _ _ _ => ⟨rfl, rfl⟩,
    fun _ _ _ _ => ⟨rfl, rfl⟩, fun _ => ⟨rfl, rfl⟩, fun val uuid now noise mr er script => ?_⟩
  rw [runChain_history_length]
  simp [encryptValue]
  omega

/-- C5: `humanDoctorReview` preserves `rawValue` and `state` exactly and
appends exactly the single history label `Human Doctor Approved`. -/
theorem humanDoctorReview_frame (a : FheValue) :
    (humanDoctorReview a).value.rawValue = a.rawValue
    ∧ (humanDoctorReview a).value.state = a.state
    ∧ (humanDoctorReview a).value.history = a.history ++ ["Human Doctor Approved"] :=
  ⟨rfl, rfl, rfl⟩

/-- C10: `homomorphicDiagnosis`, `homomorphicLabAnalysis` and
`homomorphicBilling` always return an envelope whose `rawValue` is a scalar
number, whatever the shape of the input payload; only `encryptValue` and
`humanDoctorReview` pass a structured payload through. -/
theorem transforms_scalarize :
    (∀ (a : FheValue) (now : ℕ) (noise : String),
        ∃ j, (homomorphicDiagnosis a now noise).value.rawValue = .scalar j)
    ∧ (∀ (a : FheValue) (now : ℕ) (noise : String),
        ∃ j, (homomorphicLabAnalysis a now noise).value.rawValue = .scalar j)
    ∧ (∀ (a : FheValue) (now : ℕ) (noise : String) (billRand : ℚ),
        ∃ j, (homomorphicBilling a now noise billRand).value.rawValue = .scalar j)
    ∧ (∀ a : FheValue, (humanDoctorReview a).value.rawValue = a.rawValue)
    ∧ (∀ (val : FheDataType) (uuid : String) (now : ℕ) (noise : String)
        (maskRand : Fin 4 → ℚ) (errRand : ℚ),
        (encryptValue val uuid now noise maskRand errRand).value.rawValue = val) := by
  refine ⟨fun a now noise => ?_, fun a now noise => ?_, fun a now noise r => ?_,
    fun _ => rfl, fun _ _ _ _ _ _ => rfl⟩
  · obtain ⟨id, rv, blob, st, hist⟩ := a
    cases rv <;> exact ⟨_, rfl⟩
  · obtain ⟨id, rv, blob, st, hist⟩ := a
    cases rv <;> exact ⟨_, rfl⟩
  · exact ⟨_, rfl⟩

/-- C7: within the core's own operations the envelope state only moves
forward along `PLAINTEXT, ENCRYPTED, PROCESSED, DECRYPTED`: `encryptValue`
outputs `ENCRYPTED`, the three homomorphic transforms output `PROCESSED`,
`humanDoctorReview` leaves the state unchanged, a transform never moves
the rank backwards from a non-`DECRYPTED` state and never introduces
`DECRYPTED`, and along any chain started by `encryptValue` the state is
never `DECRYPTED`. -/
theorem state_machine_forward :
    (∀ (val : FheDataType) (uuid : String) (now : ℕ) (noise : String)
        (maskRand : Fin 4 → ℚ) (errRand : ℚ),
      (encryptValue val uuid now noise maskRand errRand).value.state = .ENCRYPTED)
    ∧ (∀ (a : FheValue) (now : ℕ) (noise : String),
        (homomorphicDiagnosis a now noise).value.state = .PROCESSED)
    ∧ (∀ (a : FheValue) (now : ℕ) (noise : String),
        (homomorphicLabAnalysis a now noise).value.state = .PROCESSED)
    ∧ (∀ (a : FheValue) (now : ℕ) (noise : String) (billRand : ℚ),
        (homomorphicBilling a now noise billRand).value.state = .PROCESSED)
    ∧ (∀ a : FheValue, (humanDoctorReview a).value.state = a.state)
    ∧ (∀ (t : TTag) (amb : Amb) (a : FheValue), a.state ≠ .DECRYPTED →
        stateRank a.state ≤ stateRank ((applyTransform t amb a).state)
        ∧ (applyTransform t amb a).state ≠ .DECRYPTED)
    ∧ (∀ (val : FheDataType) (uuid : String) (now : ℕ) (noise : String)
        (maskRand : Fin 4 → ℚ) (errRand : ℚ) (script : List (TTag × Amb)),
        (runChain script (encryptValue val uuid now noise maskRand errRand).value).state
          ≠ .DECRYPTED) := by
  refine ⟨fun _ _ _ _ _ _ => rfl, fun _ _ _ => rfl, fun _ _ _ => rfl, fun _ _ _ _ => rfl,
    fun _ => rfl, fun t amb a ha => ?_, fun val uuid now noise mr er script => ?_⟩
  · rcases applyTransform_state_cases t amb a with hs | hs
    · rw [hs]; exact ⟨le_refl _, ha⟩
    · rw [hs]
      refine ⟨?_, by simp⟩
      cases h : a.state <;> simp [stateRank]
      exact absurd h ha
  · have h := runChain_state script (encryptValue val uuid now noise mr er).value (.inl rfl)
    rcases h with h | h <;> rw [h] <;> simp

theorem state_machine_forward_instance :
    (demoEnvelope (.scalar (.num 1))).state ≠ .DECRYPTED
    ∧ stateRank (demoEnvelope (.scalar (.num 1))).state
        ≤ stateRank ((applyTransform .diag demoAmb (demoEnvelope (.scalar (.num 1)))).state)
    ∧ (applyTransform .diag demoAmb (demoEnvelope (.scalar (.num 1)))).state ≠ .DECRYPTED := by
  have h := state_machine_forward.2.2.2.2.2.1 .diag demoAmb (demoEnvelope (.scalar (.num 1)))
    (by decide)
  exact ⟨by decide, h.1, h.2⟩

theorem jsSqrtFloor_eq (q : ℚ) (hq : 0 ≤ q) : jsSqrtFloor q = ⌊Real.sqrt (q : ℝ)⌋ := by
  unfold jsSqrtFloor
  have hfq : (0:ℤ) ≤ ⌊q⌋ := Int.floor_nonneg.mpr hq
  set n : ℕ := ⌊q⌋.toNat with hn
  have hnq : ((n : ℤ) : ℚ) ≤ q := by
    rw [hn, Int.toNat_of_nonneg hfq]; exact Int.floor_le q
  have hqn : q < ((n : ℤ) : ℚ) + 1 := by
    rw [hn, Int.toNat_of_nonneg hfq]; exact Int.lt_floor_add_one q
  set s : ℕ := Nat.sqrt n with hs
  have h1 : s * s ≤ n := Nat.sqrt_le n
  have h2 : n < (s + 1) * (s + 1) := Nat.lt_succ_sqrt n
  symm
  rw [Int.floor_eq_iff]
  constructor
  · rw [Real.le_sqrt (by positivity) (by exact_mod_cast hq)]
    push_cast
    calc ((s:ℝ))^2 = ((s*s : ℕ) : ℝ) := by push_cast; ring
    _ ≤ (n : ℝ) := by exact_mod_cast h1
    _ ≤ ((q:ℝ)) := by exact_mod_cast hnq
  · have hlt : ((q:ℝ)) < ((s:ℝ) + 1) ^ 2 := by
      calc ((q:ℝ)) < (n:ℝ) + 1 := by exact_mod_cast hqn
      _ ≤ (((s+1)*(s+1) : ℕ) : ℝ) := by exact_mod_cast h2
      _ = ((s:ℝ)+1)^2 := by push_cast; ring
    have hsq : Real.sqrt (q:ℝ) < (s:ℝ) + 1 := by
      have := Real.sqrt_lt_sqrt (by positivity) hlt
      rwa [Real.sqrt_sq (by positivity)] at this
    push_cast
    linarith

/-- C1: for a vitals payload `homomorphicDiagnosis` replaces `rawValue` by
`min(99, floor(20·[HR>100 ∨ HR<50] + 20·[systolic>140] + 25·[temp>37.5]
+ 30·[oxygenSat<95] + symptomSeverity·0.3))`, for a scalar `v` by
`min(99, floor(v·1.5))`, and the Scenario A vitals
`{heartRate 110, systolic 150, temperature 38, oxygenSat 90,
symptomSeverity 40}` yield `99`. -/
theorem diagnosis_matches_spec (a : FheValue) (now : ℕ) (noise : String) :
    (∀ v : PatientVitals, a.rawValue = .vitals v →
      (homomorphicDiagnosis a now noise).value.rawValue =
        .scalar (.num ((min 99
          ⌊(if v.heartRate > 100 ∨ v.heartRate < 50 then (20:ℚ) else 0)
            + (if v.systolic > 140 then 20 else 0)
            + (if v.temperature > 37.5 then 25 else 0)
            + (if v.oxygenSat < 95 then 30 else 0)
            + v.symptomSeverity * 0.3⌋ : ℤ) : ℚ)))
    ∧ (∀ x : ℚ, a.rawValue = .scalar (.num x) →
        (homomorphicDiagnosis a now noise).value.rawValue =
          .scalar (.num ((min 99 ⌊x * 1.5⌋ : ℤ) : ℚ)))
    ∧ (homomorphicDiagnosis (demoEnvelope (.vitals demoVitals)) now noise).value.rawValue
        = .scalar (.num 99) := by
  refine ⟨fun v hv => ?_, fun x hx => ?_, ?_⟩
  · simp only [homomorphicDiagnosis, hv]
  · simp only [homomorphicDiagnosis, hx, jsToNumber, jsMul, jsFloor, jsMin]
    have hcast : ((min 99 ⌊x * 1.5⌋ : ℤ) : ℚ) = min 99 ((⌊x * 1.5⌋ : ℤ) : ℚ) := by
      push_cast
      rfl
    rw [hcast]
  · have h107 : (if (110:ℚ) > 100 ∨ (110:ℚ) < 50 then (20:ℚ) else 0)
        + (if (150:ℚ) > 140 then 20 else 0)
        + (if (38:ℚ) > 37.5 then 25 else 0)
        + (if (90:ℚ) < 95 then 30 else 0)
        + 40 * 0.3 = 107 := by norm_num
    simp only [homomorphicDiagnosis, demoEnvelope, demoVitals]
    norm_num

theorem diagnosis_matches_spec_instance :
    (demoEnvelope (.scalar (.num 40))).rawValue = .scalar (.num 40)
    ∧ (homomorphicDiagnosis (demoEnvelope (.scalar (.num 40))) 0 "").value.rawValue
        = .scalar (.num ((min 99 ⌊(40:ℚ) * 1.5⌋ : ℤ) : ℚ)) :=
  ⟨rfl, (diagnosis_matches_spec (demoEnvelope (.scalar (.num 40))) 0 "").2.1 40 rfl⟩

/-- C2: for a vitals payload `homomorphicLabAnalysis` replaces `rawValue`
by `min(100, floor(sqrt((HR−70)² + (systolic−120)² + 5·(oxygenSat−98)²)))`,
for a scalar `v` by `min(100, floor(v·1.2))`; the Scenario B vitals give
`d = 2820` and result `53`. -/
theorem labAnalysis_matches_spec (a : FheValue) (now : ℕ) (noise : String) :
    (∀ v : PatientVitals, a.rawValue = .vitals v →
      (homomorphicLabAnalysis a now noise).value.rawValue =
        .scalar (.num ((min 100
          ⌊Real.sqrt (((v.heartRate - 70) ^ 2 + (v.systolic - 120) ^ 2
            + 5 * (v.oxygenSat - 98) ^ 2 : ℚ) : ℝ)⌋ : ℤ) : ℚ)))
    ∧ (∀ x : ℚ, a.rawValue = .scalar (.num x) →
        (homomorphicLabAnalysis a now noise).value.rawValue =
          .scalar (.num ((min 100 ⌊x * 1.2⌋ : ℤ) : ℚ)))
    ∧ ((demoVitals.heartRate - 70) ^ 2 + (demoVitals.systolic - 120) ^ 2
          + 5 * (demoVitals.oxygenSat - 98) ^ 2 = 2820
        ∧ (homomorphicLabAnalysis (demoEnvelope (.vitals demoVitals)) now noise).value.rawValue
            = .scalar (.num 53)) := by
  refine ⟨fun v hv => ?_, fun x hx => ?_, ?_, ?_⟩
  · simp only [homomorphicLabAnalysis, hv]
    have hd : (v.heartRate - 70) ^ 2 + (v.systolic - 120) ^ 2 + (v.oxygenSat - 98) ^ 2 * 5
        = (v.heartRate - 70) ^ 2 + (v.systolic - 120) ^ 2 + 5 * (v.oxygenSat - 98) ^ 2 := by
      ring
    rw [hd, jsSqrtFloor_eq _ (by positivity)]
  · simp only [homomorphicLabAnalysis, hx, jsToNumber, jsMul, jsFloor, jsMin]
    have hcast : ((min 100 ⌊x * 1.2⌋ : ℤ) : ℚ) = min 100 ((⌊x * 1.2⌋ : ℤ) : ℚ) := by
      push_cast
      rfl
    rw [hcast]
  · simp only [demoVitals]
    norm_num
  · have hsq : jsSqrtFloor 2820 = 53 := by
      unfold jsSqrtFloor
      have h1 : (⌊(2820:ℚ)⌋ : ℤ) = 2820 := by norm_num
      rw [h1]
      have h0 : (2820:ℤ).toNat = 2820 := rfl
      rw [h0]
      have h2 : (53:ℕ) ≤ Nat.sqrt 2820 := Nat.le_sqrt.mpr (by norm_num)
      have h3 : Nat.sqrt 2820 < 54 := Nat.sqrt_lt.mpr (by norm_num)
      have h4 : Nat.sqrt 2820 = 53 := by omega
      rw [h4]
      rfl
    simp only [homomorphicLabAnalysis, demoEnvelope, demoVitals]
    have hd : ((110:ℚ) - 70) ^ 2 + ((150:ℚ) - 120) ^ 2 + ((90:ℚ) - 98) ^ 2 * 5 = 2820 := by
      norm_num
    rw [hd, hsq]
    norm_num

theorem labAnalysis_matches_spec_instance :
    (demoEnvelope (.scalar (.num 40))).rawValue = .scalar (.num 40)
    ∧ (homomorphicLabAnalysis (demoEnvelope (.scalar (.num 40))) 0 "").value.rawValue
        = .scalar (.num ((min 100 ⌊(40:ℚ) * 1.2⌋ : ℤ) : ℚ)) :=
  ⟨rfl, (labAnalysis_matches_spec (demoEnvelope (.scalar (.num 40))) 0 "").2.1 40 rfl⟩

theorem scalar_bounds_counterexample :
    (homomorphicDiagnosis (demoEnvelope (.scalar (.num (-10)))) 0 "").value.rawValue
      = .scalar (.num (-15))
    ∧ ¬ ((0:ℚ) ≤ -15) := by
  constructor
  · simp only [homomorphicDiagnosis, demoEnvelope, jsToNumber, jsMul, jsFloor, jsMin]
    norm_num
  · norm_num

/-- C4 (amended): for every numeric scalar input the `homomorphicBilling`
result is exactly `50`; when the scalar is moreover nonnegative, the
`homomorphicDiagnosis` result lies in `[0, 99]` and the
`homomorphicLabAnalysis` result lies in `[0, 100]`.  (The unrestricted
original fails for negative scalars, see `scalar_bounds_counterexample`.) -/
theorem scalar_result_bounds (a : FheValue) (now : ℕ) (noise : String) (billRand : ℚ)
    (v : ℚ) (hv : a.rawValue = .scalar (.num v)) :
    (homomorphicBilling a now noise billRand).value.rawValue = .scalar (.num 50)
    ∧ (0 ≤ v →
        (∃ m : ℚ, (homomorphicDiagnosis a now noise).value.rawValue = .scalar (.num m)
          ∧ 0 ≤ m ∧ m ≤ 99)
        ∧ (∃ m : ℚ, (homomorphicLabAnalysis a now noise).value.rawValue = .scalar (.num m)
          ∧ 0 ≤ m ∧ m ≤ 100)) := by
  constructor
  · simp [homomorphicBilling, hv, FheDataType.isStructured]
  · intro h0
    constructor
    · refine ⟨min 99 ((⌊v * 1.5⌋ : ℤ) : ℚ), ?_, ?_, min_le_left _ _⟩
      · simp only [homomorphicDiagnosis, hv, jsToNumber, jsMul, jsFloor, jsMin]
      · refine le_min (by norm_num) ?_
        have : (0:ℤ) ≤ ⌊v * 1.5⌋ := Int.floor_nonneg.mpr (by positivity)
        exact_mod_cast this
    · refine ⟨min 100 ((⌊v * 1.2⌋ : ℤ) : ℚ), ?_, ?_, min_le_left _ _⟩
      · simp only [homomorphicLabAnalysis, hv, jsToNumber, jsMul, jsFloor, jsMin]
      · refine le_min (by norm_num) ?_
        have : (0:ℤ) ≤ ⌊v * 1.2⌋ := Int.floor_nonneg.mpr (by positivity)
        exact_mod_cast this

theorem scalar_result_bounds_instance :
    (demoEnvelope (.scalar (.num 40))).rawValue = .scalar (.num 40)
    ∧ (0:ℚ) ≤ 40
    ∧ ((homomorphicBilling (demoEnvelope (.scalar (.num 40))) 0 "" 0).value.rawValue
          = .scalar (.num 50)
        ∧ ((∃ m : ℚ, (homomorphicDiagnosis (demoEnvelope (.scalar (.num 40))) 0 "").value.rawValue
              = .scalar (.num m) ∧ 0 ≤ m ∧ m ≤ 99)
          ∧ (∃ m : ℚ, (homomorphicLabAnalysis (demoEnvelope (.scalar (.num 40))) 0 "").value.rawValue
              = .scalar (.num m) ∧ 0 ≤ m ∧ m ≤ 100))) := by
  have h := scalar_result_bounds (demoEnvelope (.scalar (.num 40))) 0 "" 0 40 rfl
  exact ⟨rfl, by norm_num, h.1, h.2 (by norm_num)⟩

/-- C6: for every structured payload, `homomorphicBilling` sets the new
`rawValue` to `150 + floor(r·50)` for the uniform draw `r ∈ [0,1)`, and
this cost always lies in the closed interval `[150, 199]`. -/
theorem billing_structured_range (a : FheValue) (now : ℕ) (noise : String) (r : ℚ)
    (hstruct : a.rawValue.isStructured = true) (h0 : 0 ≤ r) (h1 : r < 1) :
    (homomorphicBilling a now noise r).value.rawValue
      = .scalar (.num ((150 + ⌊r * 50⌋ : ℤ) : ℚ))
    ∧ (150 : ℤ) ≤ 150 + ⌊r * 50⌋
    ∧ 150 + ⌊r * 50⌋ ≤ 199 := by
  have hlo : (0:ℤ) ≤ ⌊r * 50⌋ := Int.floor_nonneg.mpr (by positivity)
  have hhi : ⌊r * 50⌋ < 50 := Int.floor_lt.mpr (by push_cast; linarith)
  refine ⟨?_, by omega, by omega⟩
  simp [homomorphicBilling, hstruct]

theorem billing_structured_range_instance :
    (demoEnvelope (.vitals demoVitals)).rawValue.isStructured = true
    ∧ (0:ℚ) ≤ 1/2 ∧ (1/2 : ℚ) < 1
    ∧ ((homomorphicBilling (demoEnvelope (.vitals demoVitals)) 0 "" (1/2)).value.rawValue
        = .scalar (.num ((150 + ⌊(1/2 : ℚ) * 50⌋ : ℤ) : ℚ))
      ∧ (150 : ℤ) ≤ 150 + ⌊(1/2 : ℚ) * 50⌋
      ∧ 150 + ⌊(1/2 : ℚ) * 50⌋ ≤ 199) := by
  have h := billing_structured_range (demoEnvelope (.vitals demoVitals)) 0 "" (1/2)
    rfl (by norm_num) (by norm_num)
  exact ⟨rfl, by norm_num, by norm_num, h⟩

/-- C9: `analyzeProtocolStep` never propagates an exception: whenever the
credential is missing, the transport call rejects, or any other step of
the `try` body throws, it returns exactly the fixed fallback payload
`fallbackAnalysis` (analysis = "Unable to contact verification oracle.
Protocol continuing in trustless mode.", securityScore = 50). -/
theorem analyzeProtocolStep_fallback (logs : List LogEntry) (env : GeminiEnv) :
    (env.apiKey = none → analyzeProtocolStep logs env = some fallbackAnalysis)
    ∧ (env.call (promptFor logs) = .error () → analyzeProtocolStep logs env = some fallbackAnalysis)
    ∧ (∀ e, analyzeProtocolStepBody logs env = .error e →
        analyzeProtocolStep logs env = some fallbackAnalysis) := by
  refine ⟨fun hk => ?_, fun hc => ?_, fun e he => ?_⟩
  · simp [analyzeProtocolStep, analyzeProtocolStepBody, hk]
  · cases hk : env.apiKey with
    | none => simp [analyzeProtocolStep, analyzeProtocolStepBody, hk]
    | some k => simp [analyzeProtocolStep, analyzeProtocolStepBody, hk, hc]
  · simp [analyzeProtocolStep, he]

theorem analyzeProtocolStep_fallback_instance :
    (GeminiEnv.mk none (fun _ => .error ()) (fun _ => .error ())).apiKey = none
    ∧ analyzeProtocolStep [] (GeminiEnv.mk none (fun _ => .error ()) (fun _ => .error ()))
        = some fallbackAnalysis :=
  ⟨rfl, (analyzeProtocolStep_fallback [] (GeminiEnv.mk none (fun _ => .error ()) (fun _ => .error ()))).1 rfl⟩

/-- A lowercase hexadecimal character (`0`-`9` or `a`-`f`). -/
def isHexChar (c : Char) : Bool :=
  (48 ≤ c.toNat && c.toNat ≤ 57) || (97 ≤ c.toNat && c.toNat ≤ 102)

/-- The spec's literal ciphertext-label pattern: `ct_0x`, then exactly six
hexadecimal characters, then `...`, then a non-empty suffix.  (Stated over
the character list of the label.) -/
def ctPatternOK (s : String) : Prop :=
  s.data.take 5 = "ct_0x".data
  ∧ ((s.data.drop 5).take 6).length = 6
  ∧ (∀ c ∈ (s.data.drop 5).take 6, isHexChar c = true)
  ∧ (s.data.drop 11).take 3 = "...".data
  ∧ s.data.drop 14 ≠ []

instance (s : String) : Decidable (ctPatternOK s) := by
  unfold ctPatternOK
  infer_instance

theorem hexDigitChar_isHex (m : ℕ) (hm : m < 16) : isHexChar (hexDigitChar m) = true := by
  interval_cases m <;> decide

theorem hexDigitsAux_lt (fuel : ℕ) : ∀ n d, d ∈ hexDigitsAux fuel n → d < 16 := by
  induction fuel with
  | zero => intro n d h; simp [hexDigitsAux] at h
  | succ f ih =>
    intro n d h
    match n with
    | 0 => simp [hexDigitsAux] at h
    | m + 1 =>
      simp only [hexDigitsAux, List.mem_cons] at h
      rcases h with h | h
      · subst h; exact Nat.mod_lt _ (by norm_num)
      · exact ih _ _ h

theorem hexDigitsAux_len (fuel : ℕ) :
    ∀ n k, n ≤ fuel → 16 ^ k ≤ n → k + 1 ≤ (hexDigitsAux fuel n).length := by
  induction fuel with
  | zero =>
    intro n k hn hk
    have : (1:ℕ) ≤ 16 ^ k := Nat.one_le_pow _ _ (by norm_num)
    omega
  | succ f ih =>
    intro n k hn hk
    match n with
    | 0 =>
      have : (1:ℕ) ≤ 16 ^ k := Nat.one_le_pow _ _ (by norm_num)
      omega
    | m + 1 =>
      simp only [hexDigitsAux, List.length_cons]
      match k with
      | 0 => omega
      | k + 1 =>
        have h16 : (16:ℕ) ^ (k + 1) = 16 ^ k * 16 := by ring
        have hdiv : 16 ^ k ≤ (m + 1) / 16 := by
          rw [Nat.le_div_iff_mul_le (by norm_num)]
          omega
        have hfl : (m + 1) / 16 ≤ f := by
          have h1 := Nat.div_le_self (m + 1) 16
          have h2 := Nat.div_lt_self (Nat.succ_pos m) (by norm_num : 1 < 16)
          omega
        have := ih ((m + 1) / 16) k hfl hdiv
        omega

theorem natToHexString_spec (n : ℕ) (hn : 16 ^ 5 ≤ n) :
    6 ≤ (natToHexString n).data.length ∧ ∀ c ∈ (natToHexString n).data, isHexChar c = true := by
  have hne : n ≠ 0 := by
    have : (1:ℕ) ≤ 16 ^ 5 := by norm_num
    omega
  unfold natToHexString
  rw [if_neg hne]
  constructor
  · show 6 ≤ ((hexDigitsAux n n).reverse.map hexDigitChar).length
    rw [List.length_map, List.length_reverse]
    have := hexDigitsAux_len n n 5 le_rfl hn
    omega
  · intro c hc
    have hc' : c ∈ (hexDigitsAux n n).reverse.map hexDigitChar := hc
    rw [List.mem_map] at hc'
    obtain ⟨d, hd, rfl⟩ := hc'
    exact hexDigitChar_isHex d (hexDigitsAux_lt n n d (List.mem_reverse.mp hd))

theorem take_len_append {α : Type} (l₁ l₂ : List α) (n : ℕ) (h : l₁.length = n) :
    (l₁ ++ l₂).take n = l₁ := by
  rw [List.take_append_eq_append_take]
  simp [h]

theorem drop_len_append {α : Type} (l₁ l₂ : List α) (n : ℕ) (h : l₁.length = n) :
    (l₁ ++ l₂).drop n = l₂ := by
  rw [List.drop_append_eq_append_drop]
  simp [h]

theorem ctPatternOK_of (h6 noise : String) (hlen : h6.data.length = 6)
    (hhex : ∀ c ∈ h6.data, isHexChar c = true) (hnz : noise.data ≠ []) :
    ctPatternOK ("ct_0x" ++ h6 ++ "..." ++ noise) := by
  have hdata : ("ct_0x" ++ h6 ++ "..." ++ noise).data
      = "ct_0x".data ++ (h6.data ++ ("...".data ++ noise.data)) := by
    rw [String.data_append, String.data_append, String.data_append,
      List.append_assoc, List.append_assoc]
  have h5 : ("ct_0x" ++ h6 ++ "..." ++ noise).data.drop 5
      = h6.data ++ ("...".data ++ noise.data) := by
    rw [hdata]
    exact drop_len_append _ _ 5 rfl
  have h11 : ("ct_0x" ++ h6 ++ "..." ++ noise).data.drop 11 = "...".data ++ noise.data := by
    rw [show (11:ℕ) = 5 + 6 from rfl, ← List.drop_drop, h5]
    exact drop_len_append _ _ 6 hlen
  have h14 : ("ct_0x" ++ h6 ++ "..." ++ noise).data.drop 14 = noise.data := by
    rw [show (14:ℕ) = 11 + 3 from rfl, ← List.drop_drop, h11]
    exact drop_len_append _ _ 3 rfl
  refine ⟨?_, ?_, ?_, ?_, ?_⟩
  · rw [hdata]
    exact take_len_append _ _ 5 rfl
  · rw [h5, take_len_append _ _ 6 hlen, hlen]
  · rw [h5, take_len_append _ _ 6 hlen]
    exact hhex
  · rw [h11]
    exact take_len_append _ _ 3 rfl
  · rw [h14]
    exact hnz

theorem ciphertext_pattern_counterexample :
    generateCiphertext (.scalar (.num (-1))) 1332 "k7" = some "ct_0x-5...k7"
    ∧ ¬ ctPatternOK "ct_0x-5...k7" := by
  constructor
  · have hx : ((-1:ℚ)) * 1337 + ((1332:ℕ):ℚ) = ((-5:ℤ):ℚ) := by norm_num
    simp only [generateCiphertext, seedOf]
    rw [hx, Rat.den_intCast, Rat.num_intCast, if_pos rfl]
    decide
  · decide

/-- C8 (amended): whenever the quantity `seed·1337 + clock` handed to
`toString(16)` is an integer of at least six hexadecimal digits
(`16^5 ≤ value`), the ciphertext label matches `ct_0x` + exactly six hex
characters + `...` + the random suffix, which is non-empty whenever the
random draw is.  (The unrestricted original fails, e.g. for a negative
integer seed whose rendering carries a minus sign and fewer than six
digits, see `ciphertext_pattern_counterexample`.) -/
theorem ciphertext_label_pattern (value : FheDataType) (now : ℕ) (noise : String) (q : ℚ)
    (hseed : seedOf value = .num q) (hden : (q * 1337 + (now:ℚ)).den = 1)
    (hnum : 16 ^ 5 ≤ (q * 1337 + (now:ℚ)).num) (hnz : noise ≠ "") :
    ∃ s, generateCiphertext value now noise = some s ∧ ctPatternOK s := by
  have hpos : ¬ ((q * 1337 + (now:ℚ)).num < 0) := by
    have : (0:ℤ) < 16 ^ 5 := by norm_num
    omega
  have hn' : 16 ^ 5 ≤ (q * 1337 + (now:ℚ)).num.toNat := by
    have h1 : (16:ℤ) ^ 5 = 1048576 := by norm_num
    have h2 : (16:ℕ) ^ 5 = 1048576 := by norm_num
    rw [h1] at hnum
    rw [h2]
    omega
  obtain ⟨hlen', hhex'⟩ := natToHexString_spec ((q * 1337 + (now:ℚ)).num.toNat) hn'
  have hint : intToHexString (q * 1337 + (now:ℚ)).num
      = natToHexString (q * 1337 + (now:ℚ)).num.toNat := by
    unfold intToHexString
    rw [if_neg hpos]
  have hlen6 : (sliceLast6 (natToHexString (q * 1337 + (now:ℚ)).num.toNat)).data.length = 6 := by
    show ((natToHexString (q * 1337 + (now:ℚ)).num.toNat).data.drop
      ((natToHexString (q * 1337 + (now:ℚ)).num.toNat).data.length - 6)).length = 6
    rw [List.length_drop]
    omega
  have hhex6 : ∀ c ∈ (sliceLast6 (natToHexString (q * 1337 + (now:ℚ)).num.toNat)).data,
      isHexChar c = true := by
    intro c hc
    exact hhex' c ((List.drop_sublist _ _).subset hc)
  have hnzd : noise.data ≠ [] := by
    intro h
    apply hnz
    cases noise
    simp_all
  refine ⟨"ct_0x" ++ sliceLast6 (intToHexString (q * 1337 + (now:ℚ)).num) ++ "..." ++ noise,
    ?_, ?_⟩
  · simp only [generateCiphertext, hseed]
    rw [if_pos hden]
  · rw [hint]
    exact ctPatternOK_of _ _ hlen6 hhex6 hnzd

theorem ciphertext_label_pattern_instance :
    seedOf (.scalar (.num 1048576)) = .num 1048576
    ∧ ((1048576:ℚ) * 1337 + ((0:ℕ):ℚ)).den = 1
    ∧ 16 ^ 5 ≤ ((1048576:ℚ) * 1337 + ((0:ℕ):ℚ)).num
    ∧ ("zz" : String) ≠ ""
    ∧ ∃ s, generateCiphertext (.scalar (.num 1048576)) 0 "zz" = some s ∧ ctPatternOK s := by
  have hval : ((1048576:ℚ)) * 1337 + ((0:ℕ):ℚ) = ((1401946112 : ℤ) : ℚ) := by norm_num
  have hden : ((1048576:ℚ) * 1337 + ((0:ℕ):ℚ)).den = 1 := by
    rw [hval, Rat.den_intCast]
  have hnum : (16:ℤ) ^ 5 ≤ ((1048576:ℚ) * 1337 + ((0:ℕ):ℚ)).num := by
    rw [hval, Rat.num_intCast]
    norm_num
  exact ⟨rfl, hden, hnum, by decide,
    ciphertext_label_pattern (.scalar (.num 1048576)) 0 "zz" 1048576 rfl hden hnum (by decide)⟩
